import Mathlib

/-!
Verification of the in-memory FASTA reader
(third_party/nucleus/io/in_memory_fasta_reader.cc).

The C++ core is embedded shallowly:

* proto message types (`Range`, `ReferenceSequence`, `ContigInfo`) become
  Lean structures with the fields the core reads; proto int64 fields become
  `Int`, strings become `String`;
* the `std::unordered_map<string, ReferenceSequence>` becomes an association
  list with `mapFind` (modelling `find` / `at`) and `mapEmplace`
  (modelling `emplace`, which refuses to overwrite an existing key);
  since keys are never inserted twice, the hash layout is irrelevant;
* `StatusOr` becomes `Except FastaError`, where `FastaError` separates the
  `InvalidArgument` status values built by the core from the
  `std::out_of_range` exception that `unordered_map::at` raises on a
  missing key;
* the iterator state (`pos_` plus the liveness of the underlying reader
  checked by `CheckIsAlive`) becomes the structure `FastaFullFileIterable`,
  and `Next`, which writes through an out-pointer, becomes a function
  returning the status, the new iterator state and the new out record.
-/

deriving instance DecidableEq for Except

namespace Nucleus

/-- Proto `nucleus.genomics.v1.Range`: a half-open interval on a named
contig.  The proto field named end is spelled end_ here because end is a
Lean keyword. -/
structure Range where
  referenceName : String
  start : Int
  end_ : Int
deriving DecidableEq, Repr

/-- Proto `nucleus.genomics.v1.ReferenceSequence`: a cached slice of one
contig (the region and its bases). -/
structure ReferenceSequence where
  region : Range
  bases : String
deriving DecidableEq, Repr

/-- Proto `nucleus.genomics.v1.ContigInfo`; the core reads only the contig
name. -/
structure ContigInfo where
  name : String
deriving DecidableEq, Repr

/-- `GenomeReferenceRecord` is `std::pair<string, string>` (contig name,
bases); `Next` writes `out->first` and `out->second`. -/
structure GenomeReferenceRecord where
  first : String
  second : String
deriving DecidableEq, Repr

/-- Failure outcomes of the embedded operations.  `invalidArgument` models
the `tensorflow::errors::InvalidArgument` status values the core
constructs; `outOfRange` models the `std::out_of_range` exception raised by
`unordered_map::at` on a missing key in `GetBases`; `notAlive` models the
error returned by `CheckIsAlive` (from the reader_base collaborator,
modelled from the spec) when the iterator outlives its reader. -/
inductive FastaError where
  | invalidArgument (msg : String)
  | outOfRange
  | notAlive
deriving DecidableEq, Repr

/-- A rendering of a `Range` used only inside error messages, standing in
for proto `ShortDebugString`. -/
def Range.shortDebugString (r : Range) : String :=
  "reference_name: \"" ++ r.referenceName ++ "\" start: " ++ toString r.start
    ++ " end: " ++ toString r.end_

/-- Modelled from the spec: `IsValidInterval` (from nucleus/util/utils,
whose source is not part of this tree) applies the same shape checks as
construction invariant I1 to the query range: non-empty reference name and
`0 <= start <= end`. -/
def isValidInterval (r : Range) : Bool :=
  r.referenceName ≠ "" && 0 ≤ r.start && r.start ≤ r.end_

/-- Lookup in the embedded `unordered_map` (models both `find` and the
lookup part of `at`). -/
def mapFind (m : List (String × ReferenceSequence)) (k : String) :
    Option ReferenceSequence :=
  match m with
  | [] => none
  | (k2, v) :: rest => if k2 = k then some v else mapFind rest k

/-- `unordered_map::emplace`: inserts only when the key is absent; the
returned Bool is the `second` field of the C++ result (whether an
insertion happened). -/
def mapEmplace (m : List (String × ReferenceSequence)) (k : String)
    (v : ReferenceSequence) : List (String × ReferenceSequence) × Bool :=
  if (mapFind m k).isSome then (m, false) else (m ++ [(k, v)], true)

/-- `std::string::substr(pos, len)` in the in-range case: the core only
calls it with `0 <= pos <= size`. -/
def strSubstr (s : String) (pos len : Nat) : String :=
  String.mk ((s.data.drop pos).take len)

/-- The store built by `InMemoryFastaReader::Create`: the contig list in
input order plus the reference_name to ReferenceSequence map. -/
structure InMemoryFastaReader where
  contigs : List ContigInfo
  seqs : List (String × ReferenceSequence)
deriving DecidableEq, Repr

/-- The validation loop of `InMemoryFastaReader::Create`: scans `seqs` in
input order, accumulating `seqs_map`, and returns the first error. -/
def createAux (m : List (String × ReferenceSequence)) :
    List ReferenceSequence →
      Except FastaError (List (String × ReferenceSequence))
  | [] => .ok m
  | seq :: rest =>
    if seq.region.referenceName = "" || seq.region.start < 0 ||
        seq.region.start > seq.region.end_ then
      .error (.invalidArgument
        ("Malformed region " ++ seq.region.shortDebugString))
    else
      let regionLen := (seq.region.end_ - seq.region.start).toNat
      if regionLen ≠ seq.bases.length then
        .error (.invalidArgument
          ("Region size = " ++ toString regionLen ++
            " not equal to bases.length() " ++ toString seq.bases.length))
      else
        let insertResult := mapEmplace m seq.region.referenceName seq
        if !insertResult.2 then
          .error (.invalidArgument
            ("Each ReferenceSequence must be on a different chromosome but multiple ones were found on "
              ++ seq.region.referenceName))
        else createAux insertResult.1 rest

/-- `InMemoryFastaReader::Create(contigs, seqs)`. -/
def InMemoryFastaReader.create (contigs : List ContigInfo)
    (seqs : List ReferenceSequence) :
    Except FastaError InMemoryFastaReader :=
  match createAux [] seqs with
  | .error e => .error e
  | .ok m => .ok ⟨contigs, m⟩

/-- `InMemoryFastaReader::GetBases(range)`. -/
def InMemoryFastaReader.getBases (r : InMemoryFastaReader)
    (range : Range) : Except FastaError String :=
  if !isValidInterval range then
    .error (.invalidArgument
      ("Invalid interval: " ++ range.shortDebugString))
  else
    match mapFind r.seqs range.referenceName with
    | none => .error .outOfRange
    | some seq =>
      if range.start < seq.region.start || range.end_ > seq.region.end_ then
        .error (.invalidArgument
          ("Cannot query range=" ++ range.shortDebugString ++
            " as this InMemoryFastaReader only has bases in the interval="
            ++ seq.region.shortDebugString))
      else
        let pos := range.start - seq.region.start
        let len := range.end_ - range.start
        .ok (strSubstr seq.bases pos.toNat len.toNat)

/-- State of a `FastaFullFileIterable`: the reader it traverses, whether
the reader is still alive (the reader_base liveness flag queried by
`CheckIsAlive`, modelled from the spec), and the cursor `pos_`. -/
structure FastaFullFileIterable where
  reader : InMemoryFastaReader
  alive : Bool
  pos : Nat
deriving DecidableEq, Repr

/-- `InMemoryFastaReader::Iterate()`: a fresh iterator over a live reader,
positioned at 0. -/
def InMemoryFastaReader.iterate (r : InMemoryFastaReader) :
    FastaFullFileIterable :=
  ⟨r, true, 0⟩

/-- `FastaFullFileIterable::Next(out)`: returns the `StatusOr<bool>`
result together with the new iterator state and the new contents of the
out record. -/
def FastaFullFileIterable.next (it : FastaFullFileIterable)
    (out : GenomeReferenceRecord) :
    Except FastaError Bool × FastaFullFileIterable × GenomeReferenceRecord :=
  if it.alive = false then (.error .notAlive, it, out)
  else if h : it.reader.contigs.length ≤ it.pos then (.ok false, it, out)
  else
    let referenceName :=
      (it.reader.contigs.get ⟨it.pos, Nat.lt_of_not_le h⟩).name
    match mapFind it.reader.seqs referenceName with
    | none => (.ok false, it, out)
    | some seq =>
      (.ok true, { it with pos := it.pos + 1 }, ⟨referenceName, seq.bases⟩)

/-- Repeatedly call `next`, collecting the records of the successful calls,
until a call does not produce a record or the fuel runs out. -/
def runNexts (it : FastaFullFileIterable) (out : GenomeReferenceRecord) :
    Nat → List GenomeReferenceRecord
  | 0 => []
  | fuel + 1 =>
    match it.next out with
    | (.ok true, it2, out2) => out2 :: runNexts it2 out2 fuel
    | _ => []

/-- A full traversal: iterate from a fresh iterator; `contigs.length` calls
of fuel suffice because each successful `next` advances the cursor. -/
def traverse (r : InMemoryFastaReader) : List GenomeReferenceRecord :=
  runNexts r.iterate ⟨"", ""⟩ r.contigs.length

/-!
Spec-side definitions, written from the specification's words, used to
state the refinement-style claims about the scan order of `Create` and the
traversal of the iterator.
-/

/-- Spec-side: whether a sequence violates a construction invariant, given
the already-accepted sequences `prev`: malformed region (I1), bases length
different from the region size (I2), or a reference name equal to that of
an already-accepted sequence (I3). -/
def seqViolation (prev : List ReferenceSequence) (s : ReferenceSequence) :
    Bool :=
  (s.region.referenceName = "" || s.region.start < 0 ||
      s.region.start > s.region.end_)
    || ((s.region.end_ - s.region.start).toNat ≠ s.bases.length)
    || decide (s.region.referenceName ∈
          prev.map (fun t => t.region.referenceName))

/-- Spec-side: the `InvalidArgument` error the first violated check of a
violating sequence produces (checks in source order: region shape, then
length, then duplicate). -/
def violationError (s : ReferenceSequence) : FastaError :=
  if s.region.referenceName = "" || s.region.start < 0 ||
      s.region.start > s.region.end_ then
    .invalidArgument ("Malformed region " ++ s.region.shortDebugString)
  else if (s.region.end_ - s.region.start).toNat ≠ s.bases.length then
    .invalidArgument
      ("Region size = " ++ toString (s.region.end_ - s.region.start).toNat ++
        " not equal to bases.length() " ++ toString s.bases.length)
  else
    .invalidArgument
      ("Each ReferenceSequence must be on a different chromosome but multiple ones were found on "
        ++ s.region.referenceName)

/-- Spec-side: the whole list scans cleanly starting from accepted
sequences `prev` (each element is accepted given everything before it). -/
def allValidFrom (prev : List ReferenceSequence) :
    List ReferenceSequence → Bool
  | [] => true
  | s :: rest => !seqViolation prev s && allValidFrom (prev ++ [s]) rest

/-- Spec-side: the map a clean scan builds: one entry per sequence, keyed
by reference name, in input order. -/
def buildMapSpec (seqs : List ReferenceSequence) :
    List (String × ReferenceSequence) :=
  seqs.map (fun s => (s.region.referenceName, s))

/-- Spec-side: what a full traversal should yield: one record per contig
of the longest prefix of the contig list whose names all have cached
sequences, in contig-list order. -/
def expectedRecords (r : InMemoryFastaReader) : List GenomeReferenceRecord :=
  (r.contigs.takeWhile (fun c => (mapFind r.seqs c.name).isSome)).map
    (fun c =>
      match mapFind r.seqs c.name with
      | some s => ⟨c.name, s.bases⟩
      | none => ⟨c.name, ""⟩)

/-- Classifies a `GetBases` outcome as an `InvalidArgument` failure. -/
def isInvalidArgumentFailure : Except FastaError String → Bool
  | .error (.invalidArgument _) => true
  | _ => false

/-!
Concrete inputs used by the witness theorems, taken from the examples in
the specification's testable properties.
-/

def witContig1 : ContigInfo := ⟨"chr1"⟩

def witContig2 : ContigInfo := ⟨"chr2"⟩

def witSeq1 : ReferenceSequence := ⟨⟨"chr1", 0, 3⟩, "ACG"⟩

def witSeq2 : ReferenceSequence := ⟨⟨"chr2", 1, 4⟩, "TTT"⟩

def witSeqDup : ReferenceSequence := ⟨⟨"chr1", 5, 7⟩, "GG"⟩

def witBases100 : String := String.mk (List.replicate 100 'A')

def witSeqChr1 : ReferenceSequence := ⟨⟨"chr1", 100, 200⟩, witBases100⟩

/-!
Helper lemmas.
-/

theorem mapFind_buildMapSpec_isSome (prev : List ReferenceSequence)
    (k : String) :
    (mapFind (buildMapSpec prev) k).isSome =
      decide (k ∈ prev.map (fun t => t.region.referenceName)) := by
  induction prev with
  | nil => simp [buildMapSpec, mapFind]
  | cons t rest ih =>
    simp only [buildMapSpec, List.map_cons, mapFind] at ih ⊢
    by_cases h : t.region.referenceName = k
    · simp [h]
    · simp [h, ih, Ne.symm h]

theorem buildMapSpec_append (prev : List ReferenceSequence)
    (s : ReferenceSequence) :
    buildMapSpec (prev ++ [s]) =
      buildMapSpec prev ++ [(s.region.referenceName, s)] := by
  simp [buildMapSpec]

theorem createAux_cons (prev : List ReferenceSequence)
    (s : ReferenceSequence) (rest : List ReferenceSequence) :
    createAux (buildMapSpec prev) (s :: rest) =
      if seqViolation prev s then .error (violationError s)
      else createAux (buildMapSpec (prev ++ [s])) rest := by
  simp only [createAux, seqViolation, violationError, mapEmplace,
    buildMapSpec_append]
  by_cases h1 : (s.region.referenceName = "" || decide (s.region.start < 0) ||
      decide (s.region.start > s.region.end_)) = true
  · simp [h1]
  · simp only [h1, if_neg, Bool.false_or]
    by_cases h2 : ((s.region.end_ - s.region.start).toNat ≠ s.bases.length)
    · simp [h1, h2]
    · by_cases h3 : s.region.referenceName ∈
        prev.map (fun t => t.region.referenceName)
      · have hmem : ∃ a ∈ prev,
            a.region.referenceName = s.region.referenceName := by
          rwa [List.mem_map] at h3
        simp [h1, h2, h3, hmem, mapFind_buildMapSpec_isSome]
      · have hmem : ¬ ∃ a ∈ prev,
            a.region.referenceName = s.region.referenceName := by
          rwa [List.mem_map] at h3
        simp [h1, h2, h3, hmem, mapFind_buildMapSpec_isSome]

theorem createAux_allValid (seqs : List ReferenceSequence) :
    ∀ prev, allValidFrom prev seqs = true →
      createAux (buildMapSpec prev) seqs = .ok (buildMapSpec (prev ++ seqs)) := by
  induction seqs with
  | nil => intro prev _; simp [createAux]
  | cons s rest ih =>
    intro prev h
    simp only [allValidFrom, Bool.and_eq_true, Bool.not_eq_true'] at h
    rw [createAux_cons, if_neg (by simp [h.1]), ih _ h.2]
    simp

theorem createAux_firstErr (pre : List ReferenceSequence) :
    ∀ prev (s : ReferenceSequence) (post : List ReferenceSequence),
      allValidFrom prev pre = true → seqViolation (prev ++ pre) s = true →
      createAux (buildMapSpec prev) (pre ++ s :: post) =
        .error (violationError s) := by
  induction pre with
  | nil =>
    intro prev s post _ hs
    simp only [List.append_nil] at hs
    rw [List.nil_append, createAux_cons, if_pos hs]
  | cons p pre ih =>
    intro prev s post hpre hs
    simp only [allValidFrom, Bool.and_eq_true, Bool.not_eq_true'] at hpre
    rw [List.cons_append, createAux_cons, if_neg (by simp [hpre.1])]
    refine ih (prev ++ [p]) s post hpre.2 ?_
    simpa only [List.append_assoc, List.singleton_append] using hs

theorem allValidFrom_of_valid (seqs : List ReferenceSequence) :
    ∀ prev,
      (∀ s ∈ seqs, s.region.referenceName ≠ "" ∧ 0 ≤ s.region.start ∧
          s.region.start ≤ s.region.end_) →
      (∀ s ∈ seqs, s.bases.length = (s.region.end_ - s.region.start).toNat) →
      ((prev ++ seqs).map (fun s => s.region.referenceName)).Nodup →
      allValidFrom prev seqs = true := by
  induction seqs with
  | nil => intro prev _ _ _; rfl
  | cons s rest ih =>
    intro prev h1 h2 h3
    have hs1 := h1 s (List.mem_cons_self _ _)
    have hs2 := h2 s (List.mem_cons_self _ _)
    have hnotmem : s.region.referenceName ∉
        prev.map (fun t => t.region.referenceName) := by
      intro hmem
      rw [List.map_append] at h3
      rcases List.nodup_append.mp h3 with ⟨-, -, hdisj⟩
      exact hdisj hmem (by simp)
    have hviol : seqViolation prev s = false := by
      simp [seqViolation, hs1.1, not_lt.mpr hs1.2.1, not_lt.mpr hs1.2.2,
        hs2, hnotmem]
    rw [allValidFrom, hviol]
    simp only [Bool.not_false, Bool.true_and]
    refine ih (prev ++ [s]) (fun t ht => h1 t (List.mem_cons_of_mem _ ht))
      (fun t ht => h2 t (List.mem_cons_of_mem _ ht)) ?_
    simpa only [List.append_assoc, List.singleton_append] using h3

theorem mapFind_buildMapSpec_of_nodup (seqs : List ReferenceSequence)
    (h3 : (seqs.map (fun s => s.region.referenceName)).Nodup) :
    ∀ e ∈ seqs, mapFind (buildMapSpec seqs) e.region.referenceName = some e := by
  induction seqs with
  | nil => intro e he; cases he
  | cons s rest ih =>
    intro e he
    show (if s.region.referenceName = e.region.referenceName then some s
      else mapFind (buildMapSpec rest) e.region.referenceName) = some e
    rcases List.nodup_cons.mp h3 with ⟨hnotin, hrest⟩
    by_cases h : s.region.referenceName = e.region.referenceName
    · rcases List.mem_cons.mp he with rfl | hmem
      · simp [h]
      · refine absurd ?_ hnotin
        show s.region.referenceName ∈
          rest.map (fun t => t.region.referenceName)
        rw [h]
        exact List.mem_map_of_mem _ hmem
    · rw [if_neg h]
      rcases List.mem_cons.mp he with rfl | hmem
      · exact absurd rfl h
      · exact ih hrest e hmem

theorem strSubstr_full (s : String) : strSubstr s 0 s.length = s := by
  cases s with
  | mk data => simp [strSubstr, String.length]

theorem getBases_own_region (st : InMemoryFastaReader)
    (e : ReferenceSequence)
    (hv : isValidInterval e.region = true)
    (hlen : e.bases.length = (e.region.end_ - e.region.start).toNat)
    (hfind : mapFind st.seqs e.region.referenceName = some e) :
    st.getBases e.region = .ok e.bases := by
  have hsub : strSubstr e.bases 0
      ((e.region.end_ - e.region.start).toNat) = e.bases := by
    rw [← hlen]
    exact strSubstr_full e.bases
  simp [InMemoryFastaReader.getBases, hv, hfind, lt_irrefl, hsub]

theorem runNexts_drop (r : InMemoryFastaReader) (rest : List ContigInfo) :
    ∀ (pos fuel : Nat) (out : GenomeReferenceRecord),
      r.contigs.drop pos = rest → rest.length ≤ fuel →
      runNexts ⟨r, true, pos⟩ out fuel =
        (rest.takeWhile (fun c => (mapFind r.seqs c.name).isSome)).map
          (fun c =>
            match mapFind r.seqs c.name with
            | some s => ⟨c.name, s.bases⟩
            | none => ⟨c.name, ""⟩) := by
  induction rest with
  | nil =>
    intro pos fuel out hdrop _
    have hle : r.contigs.length ≤ pos := by
      rwa [List.drop_eq_nil_iff] at hdrop
    have hnext : FastaFullFileIterable.next ⟨r, true, pos⟩ out =
        (.ok false, ⟨r, true, pos⟩, out) := by
      simp [FastaFullFileIterable.next, hle]
    cases fuel with
    | zero => simp [runNexts]
    | succ f => simp [runNexts, hnext]
  | cons c rest ih =>
    intro pos fuel out hdrop hfuel
    have hlt : pos < r.contigs.length := by
      by_contra hge
      push_neg at hge
      rw [List.drop_eq_nil_iff.mpr hge] at hdrop
      simp at hdrop
    have hcons := List.drop_eq_getElem_cons hlt
    rw [hdrop] at hcons
    have hhead : r.contigs[pos] = c :=
      (List.cons.injEq _ _ _ _ ▸ hcons).1.symm
    have htail : r.contigs.drop (pos + 1) = rest :=
      ((List.cons.injEq _ _ _ _ ▸ hcons).2).symm
    have hnotle : ¬ r.contigs.length ≤ pos := not_le.mpr hlt
    cases fuel with
    | zero => exact absurd hfuel (by simp)
    | succ f =>
      cases hfind : mapFind r.seqs c.name with
      | none =>
        have hnext : FastaFullFileIterable.next ⟨r, true, pos⟩ out =
            (.ok false, ⟨r, true, pos⟩, out) := by
          simp [FastaFullFileIterable.next, hnotle, hhead, hfind]
        simp [runNexts, hnext, List.takeWhile_cons, hfind]
      | some s =>
        have hnext : FastaFullFileIterable.next ⟨r, true, pos⟩ out =
            (.ok true, ⟨r, true, pos + 1⟩, ⟨c.name, s.bases⟩) := by
          simp [FastaFullFileIterable.next, hnotle, hhead, hfind]
        have hrec := ih (pos + 1) f ⟨c.name, s.bases⟩ htail
          (by simpa using hfuel)
        simp [runNexts, hnext, hrec, List.takeWhile_cons, hfind]

theorem traverse_eq_expectedRecords (r : InMemoryFastaReader) :
    traverse r = expectedRecords r := by
  unfold traverse expectedRecords InMemoryFastaReader.iterate
  exact runNexts_drop r r.contigs 0 r.contigs.length ⟨"", ""⟩
    (List.drop_zero _) (le_refl _)

theorem takeWhile_of_all {α : Type} (p : α → Bool) :
    ∀ l : List α, (∀ a ∈ l, p a = true) → l.takeWhile p = l := by
  intro l h
  induction l with
  | nil => rfl
  | cons a l ih =>
    rw [List.takeWhile_cons, h a (List.mem_cons_self _ _)]
    simp [ih (fun b hb => h b (List.mem_cons_of_mem _ hb))]

/-!
Claim theorems.
-/

/-- Claim C1: for every contigs list and every sequences list satisfying
I1 (non-empty reference name, `0 <= start <= end`), I2 (`len(bases) =
end - start`) and I3 (pairwise distinct reference names), `Create`
succeeds, and for every input SequenceEntry `e`, `GetBases(e.region)` on
the resulting store returns exactly `e.bases`. -/
theorem create_getBases_round_trip (contigs : List ContigInfo)
    (seqs : List ReferenceSequence)
    (h1 : ∀ s ∈ seqs, s.region.referenceName ≠ "" ∧ 0 ≤ s.region.start ∧
        s.region.start ≤ s.region.end_)
    (h2 : ∀ s ∈ seqs, s.bases.length = (s.region.end_ - s.region.start).toNat)
    (h3 : (seqs.map (fun s => s.region.referenceName)).Nodup) :
    ∃ st, InMemoryFastaReader.create contigs seqs = .ok st ∧
      ∀ e ∈ seqs, st.getBases e.region = .ok e.bases := by
  have hvalid : allValidFrom [] seqs = true :=
    allValidFrom_of_valid seqs [] h1 h2 (by simpa using h3)
  have hcreate : createAux [] seqs = .ok (buildMapSpec seqs) := by
    have := createAux_allValid seqs [] hvalid
    simpa [buildMapSpec] using this
  refine ⟨⟨contigs, buildMapSpec seqs⟩, ?_, ?_⟩
  · simp [InMemoryFastaReader.create, hcreate]
  · intro e he
    refine getBases_own_region _ e ?_ ?_ ?_
    · have := h1 e he
      simp [isValidInterval, this.1, this.2.1, this.2.2]
    · exact h2 e he
    · exact mapFind_buildMapSpec_of_nodup seqs h3 e he

/-- Claim C1 witness: a concrete two-sequence instance of the round
trip. -/
theorem create_getBases_round_trip_witness :
    ∃ st, InMemoryFastaReader.create [witContig1] [witSeq1, witSeq2] =
        .ok st ∧
      ∀ e ∈ [witSeq1, witSeq2], st.getBases e.region = .ok e.bases :=
  create_getBases_round_trip [witContig1] [witSeq1, witSeq2]
    (by decide) (by decide) (by decide)

/-- Claim C2: `Create` scans the sequences in input order and fails with
`InvalidArgument` at the first sequence violating a construction
invariant (malformed region, length mismatch, or a reference name seen on
an already-accepted sequence; for duplicates the second occurrence
triggers the error, after all earlier sequences were accepted); with no
violation, `Create` succeeds. -/
theorem create_fails_at_first_violation (contigs : List ContigInfo)
    (seqs pre post : List ReferenceSequence) (s : ReferenceSequence) :
    (seqs = pre ++ s :: post → allValidFrom [] pre = true →
        seqViolation pre s = true →
        InMemoryFastaReader.create contigs seqs =
          .error (violationError s))
    ∧ (allValidFrom [] seqs = true →
        ∃ st, InMemoryFastaReader.create contigs seqs = .ok st) := by
  constructor
  · intro hseqs hpre hs
    subst hseqs
    have herr := createAux_firstErr pre [] s post hpre (by simpa using hs)
    have herr2 : createAux [] (pre ++ s :: post) =
        .error (violationError s) := by
      simpa [buildMapSpec] using herr
    simp [InMemoryFastaReader.create, herr2]
  · intro h
    have hok := createAux_allValid seqs [] h
    have hok2 : createAux [] seqs = .ok (buildMapSpec seqs) := by
      simpa [buildMapSpec] using hok
    exact ⟨⟨contigs, buildMapSpec seqs⟩, by
      simp [InMemoryFastaReader.create, hok2]⟩

/-- Claim C2 witness: a duplicated `chr1` sequence; the second occurrence
triggers the duplicate-chromosome error. -/
theorem create_fails_at_first_violation_witness :
    InMemoryFastaReader.create [witContig1] [witSeq1, witSeqDup] =
      .error (violationError witSeqDup) :=
  (create_fails_at_first_violation [witContig1] [witSeq1, witSeqDup]
    [witSeq1] [] witSeqDup).1 rfl (by decide) (by decide)

/-- Claim C3: for every store and well-formed query range whose reference
name has a cached entry `e` with `e.region.start <= query.start` and
`query.end <= e.region.end`, `GetBases` succeeds and returns the substring
of `e.bases` at offset `query.start - e.region.start` of length
`query.end - query.start`; in particular an empty query range yields the
empty string. -/
theorem getBases_contained_query (r : InMemoryFastaReader) (q : Range)
    (e : ReferenceSequence)
    (hq : isValidInterval q = true)
    (he : mapFind r.seqs q.referenceName = some e)
    (h1 : e.region.start ≤ q.start) (h2 : q.end_ ≤ e.region.end_) :
    r.getBases q =
      .ok (strSubstr e.bases (q.start - e.region.start).toNat
        (q.end_ - q.start).toNat)
    ∧ (q.start = q.end_ → r.getBases q = .ok "") := by
  have hmain : r.getBases q =
      .ok (strSubstr e.bases (q.start - e.region.start).toNat
        (q.end_ - q.start).toNat) := by
    simp [InMemoryFastaReader.getBases, hq, he, not_lt.mpr h1,
      not_lt.mpr h2]
  refine ⟨hmain, fun heq => ?_⟩
  rw [hmain]
  have hzero : (q.end_ - q.start).toNat = 0 := by
    rw [← heq]
    simp
  rw [hzero]
  rfl

/-- Claim C3 witness: the spec's empty-query example, `[150, 150)` against
a `chr1` entry covering `[100, 200)`. -/
theorem getBases_contained_query_witness :
    (InMemoryFastaReader.getBases ⟨[witContig1], buildMapSpec [witSeqChr1]⟩
        ⟨"chr1", 150, 150⟩ =
      .ok (strSubstr witSeqChr1.bases ((150 : Int) - 100).toNat
        ((150 : Int) - 150).toNat))
    ∧ ((150 : Int) = 150 →
      InMemoryFastaReader.getBases ⟨[witContig1], buildMapSpec [witSeqChr1]⟩
          ⟨"chr1", 150, 150⟩ = .ok "") :=
  getBases_contained_query ⟨[witContig1], buildMapSpec [witSeqChr1]⟩
    ⟨"chr1", 150, 150⟩ witSeqChr1 (by decide) (by decide) (by decide)
    (by decide)

/-- Claim C4: for every store and well-formed query range whose reference
name has a cached entry `e`, `GetBases` fails with `InvalidArgument`
exactly when `query.start < e.region.start` or
`query.end > e.region.end`: a partially overlapping query is rejected,
never clipped. -/
theorem getBases_containment_enforced (r : InMemoryFastaReader) (q : Range)
    (e : ReferenceSequence)
    (hq : isValidInterval q = true)
    (he : mapFind r.seqs q.referenceName = some e) :
    (∃ msg, r.getBases q = .error (.invalidArgument msg)) ↔
      (q.start < e.region.start ∨ q.end_ > e.region.end_) := by
  constructor
  · rintro ⟨msg, hmsg⟩
    by_contra hno
    push_neg at hno
    simp [InMemoryFastaReader.getBases, hq, he, not_lt.mpr hno.1,
      not_lt.mpr hno.2] at hmsg
  · intro h
    rcases h with h | h
    · exact ⟨"Cannot query range=" ++ q.shortDebugString ++
        " as this InMemoryFastaReader only has bases in the interval=" ++
        e.region.shortDebugString,
        by simp [InMemoryFastaReader.getBases, hq, he, h]⟩
    · exact ⟨"Cannot query range=" ++ q.shortDebugString ++
        " as this InMemoryFastaReader only has bases in the interval=" ++
        e.region.shortDebugString,
        by simp [InMemoryFastaReader.getBases, hq, he, h]⟩

/-- Claim C4 witness: the spec's containment example: against a `chr1`
entry covering `[100, 200)`, the query `[90, 150)` overlaps only
partially, so `GetBases` fails with `InvalidArgument`. -/
theorem getBases_containment_enforced_witness :
    (∃ msg, InMemoryFastaReader.getBases
        ⟨[witContig1], buildMapSpec [witSeqChr1]⟩ ⟨"chr1", 90, 150⟩ =
          .error (.invalidArgument msg)) ↔
      ((90 : Int) < witSeqChr1.region.start ∨
        (150 : Int) > witSeqChr1.region.end_) :=
  getBases_containment_enforced ⟨[witContig1], buildMapSpec [witSeqChr1]⟩
    ⟨"chr1", 90, 150⟩ witSeqChr1 (by decide) (by decide)

/-- Claim C7 counterexample: on a well-formed query whose reference name
has no cached entry, `GetBases` does not fail with `InvalidArgument` as
the claim states: it fails with the out-of-range exception raised by the
unchecked map lookup. -/
theorem getBases_absent_contig_counterexample :
    (InMemoryFastaReader.getBases ⟨[witContig1], buildMapSpec [witSeq1]⟩
        ⟨"chr2", 0, 0⟩ = .error .outOfRange)
    ∧ isInvalidArgumentFailure
        (InMemoryFastaReader.getBases ⟨[witContig1], buildMapSpec [witSeq1]⟩
          ⟨"chr2", 0, 0⟩) = false := by
  decide

/-- Claim C7 (amended): for every store and well-formed query range whose
reference name has no cached entry, `GetBases` fails — with the
out-of-range failure of the unchecked `at` lookup rather than with
`InvalidArgument` — and never returns a value. -/
theorem getBases_absent_contig_fails (r : InMemoryFastaReader) (q : Range)
    (hq : isValidInterval q = true)
    (he : mapFind r.seqs q.referenceName = none) :
    r.getBases q = .error .outOfRange := by
  simp [InMemoryFastaReader.getBases, hq, he]

/-- Claim C7 witness: a concrete absent-contig query failing with the
out-of-range error. -/
theorem getBases_absent_contig_fails_witness :
    InMemoryFastaReader.getBases ⟨[witContig1], buildMapSpec [witSeq1]⟩
        ⟨"chr2", 0, 1⟩ = .error .outOfRange :=
  getBases_absent_contig_fails ⟨[witContig1], buildMapSpec [witSeq1]⟩
    ⟨"chr2", 0, 1⟩ (by decide) (by decide)

/-- Claim C5: when the iterator is at an index `i < N` whose contig name
has no cached sequence, `Next` signals "no more records" immediately,
even if later contigs do have entries; consequently a full traversal
yields exactly the records for the longest prefix of the contig list
whose names all have cached sequences. -/
theorem next_early_termination_quirk :
    (∀ (it : FastaFullFileIterable) (out : GenomeReferenceRecord)
        (c : ContigInfo),
      it.alive = true → it.reader.contigs[it.pos]? = some c →
      mapFind it.reader.seqs c.name = none →
      it.next out = (.ok false, it, out))
    ∧ ∀ r : InMemoryFastaReader, traverse r = expectedRecords r := by
  constructor
  · intro it out c ha hc hfind
    obtain ⟨hlt, hgetel⟩ := List.getElem?_eq_some.mp hc
    have hnotle : ¬ it.reader.contigs.length ≤ it.pos := not_le.mpr hlt
    simp [FastaFullFileIterable.next, ha, hnotle, hgetel, hfind]
  · exact traverse_eq_expectedRecords

/-- Claim C5 witness: the spec's quirk example: contigs `[chr1, chr2]`
with only `chr2` cached; the first `Next` already signals the end and the
whole traversal yields zero records. -/
theorem next_early_termination_quirk_witness :
    (FastaFullFileIterable.next
        ⟨⟨[witContig1, witContig2], buildMapSpec [witSeq2]⟩, true, 0⟩
        ⟨"", ""⟩ =
      (.ok false,
        ⟨⟨[witContig1, witContig2], buildMapSpec [witSeq2]⟩, true, 0⟩,
        ⟨"", ""⟩))
    ∧ traverse ⟨[witContig1, witContig2], buildMapSpec [witSeq2]⟩ = [] :=
  ⟨next_early_termination_quirk.1
      ⟨⟨[witContig1, witContig2], buildMapSpec [witSeq2]⟩, true, 0⟩
      ⟨"", ""⟩ witContig1 rfl (by decide) (by decide),
    (next_early_termination_quirk.2
      ⟨[witContig1, witContig2], buildMapSpec [witSeq2]⟩).trans (by decide)⟩

/-- Claim C6: every successful `Next` advances the cursor by exactly one,
and when every contig has a cached sequence a full traversal emits one
`(name, bases)` record per contig, in the order of the contig list given
to `Create`. -/
theorem traverse_contig_list_order :
    (∀ (it : FastaFullFileIterable) (out : GenomeReferenceRecord),
      (it.next out).1 = .ok true →
      (it.next out).2.1 = { it with pos := it.pos + 1 })
    ∧ ∀ r : InMemoryFastaReader,
      (∀ c ∈ r.contigs, (mapFind r.seqs c.name).isSome = true) →
      traverse r = r.contigs.map
        (fun c =>
          match mapFind r.seqs c.name with
          | some s => ⟨c.name, s.bases⟩
          | none => ⟨c.name, ""⟩) := by
  constructor
  · intro it out h
    by_cases ha : it.alive = false
    · simp [FastaFullFileIterable.next, ha] at h
    · by_cases hle : it.reader.contigs.length ≤ it.pos
      · simp [FastaFullFileIterable.next, ha, hle] at h
      · cases hfind : mapFind it.reader.seqs
            (it.reader.contigs.get ⟨it.pos, Nat.lt_of_not_le hle⟩).name with
        | none =>
          rw [List.get_eq_getElem] at hfind
          simp [FastaFullFileIterable.next, ha, hle, hfind] at h
        | some s =>
          rw [List.get_eq_getElem] at hfind
          simp [FastaFullFileIterable.next, ha, hle, hfind]
  · intro r hall
    rw [traverse_eq_expectedRecords]
    unfold expectedRecords
    rw [takeWhile_of_all _ r.contigs hall]

/-- Claim C6 witness: the spec's order example: contigs `[chr2, chr1]`
each fully cached; traversal yields `chr2` before `chr1`, and a
successful `Next` advances the cursor from 0 to 1. -/
theorem traverse_contig_list_order_witness :
    (FastaFullFileIterable.next
        ⟨⟨[witContig2, witContig1], buildMapSpec [witSeq1, witSeq2]⟩,
          true, 0⟩ ⟨"", ""⟩).2.1 =
      ⟨⟨[witContig2, witContig1], buildMapSpec [witSeq1, witSeq2]⟩, true, 1⟩
    ∧ traverse ⟨[witContig2, witContig1], buildMapSpec [witSeq1, witSeq2]⟩ =
      [⟨"chr2", "TTT"⟩, ⟨"chr1", "ACG"⟩] :=
  ⟨traverse_contig_list_order.1
      ⟨⟨[witContig2, witContig1], buildMapSpec [witSeq1, witSeq2]⟩,
        true, 0⟩ ⟨"", ""⟩ (by decide),
    (traverse_contig_list_order.2
      ⟨[witContig2, witContig1], buildMapSpec [witSeq1, witSeq2]⟩
      (by decide)).trans (by decide)⟩

/-- Claim C8: whether `Create` succeeds depends only on the sequences
list, never on the contigs list (invariant I4 is not enforced at
construction), and a sequences list satisfying I1 through I3 is accepted
against any contigs list, matching or not. -/
theorem create_independent_of_contigs (contigs contigs2 : List ContigInfo)
    (seqs : List ReferenceSequence) :
    ((InMemoryFastaReader.create contigs seqs).isOk =
      (InMemoryFastaReader.create contigs2 seqs).isOk)
    ∧ ((∀ s ∈ seqs, s.region.referenceName ≠ "" ∧ 0 ≤ s.region.start ∧
          s.region.start ≤ s.region.end_) →
       (∀ s ∈ seqs, s.bases.length = (s.region.end_ - s.region.start).toNat) →
       (seqs.map (fun s => s.region.referenceName)).Nodup →
       (InMemoryFastaReader.create contigs seqs).isOk = true) := by
  constructor
  · cases h : createAux [] seqs with
    | error e => simp [InMemoryFastaReader.create, h]
    | ok m => simp [InMemoryFastaReader.create, h, Except.isOk, Except.toBool]
  · intro h1 h2 h3
    have hvalid : allValidFrom [] seqs = true :=
      allValidFrom_of_valid seqs [] h1 h2 (by simpa using h3)
    have hok : createAux [] seqs = .ok (buildMapSpec seqs) := by
      simpa [buildMapSpec] using createAux_allValid seqs [] hvalid
    simp [InMemoryFastaReader.create, hok, Except.isOk, Except.toBool]

/-- Claim C8 witness: a `chr2` sequence with no matching contig is
accepted, and the outcome is the same with a different contigs list. -/
theorem create_independent_of_contigs_witness :
    ((InMemoryFastaReader.create [witContig1] [witSeq2]).isOk =
      (InMemoryFastaReader.create [] [witSeq2]).isOk)
    ∧ (InMemoryFastaReader.create [witContig1] [witSeq2]).isOk = true :=
  ⟨(create_independent_of_contigs [witContig1] [] [witSeq2]).1,
    (create_independent_of_contigs [witContig1] [] [witSeq2]).2
      (by decide) (by decide) (by decide)⟩

/-- Claim C9: once the cursor is at or past the end of the contig list, a
live iterator's `Next` signals "no more records" with the state (and out
record) unchanged, and no later call ever yields a record. -/
theorem next_exhausted_stable (it : FastaFullFileIterable)
    (out : GenomeReferenceRecord)
    (ha : it.alive = true) (hp : it.reader.contigs.length ≤ it.pos) :
    it.next out = (.ok false, it, out) ∧
      ∀ fuel, runNexts it out fuel = [] := by
  have hnext : it.next out = (.ok false, it, out) := by
    simp [FastaFullFileIterable.next, ha, hp]
  refine ⟨hnext, fun fuel => ?_⟩
  cases fuel with
  | zero => rfl
  | succ f => simp [runNexts, hnext]

/-- Claim C9 witness: a one-contig store with the cursor already at 5. -/
theorem next_exhausted_stable_witness :
    (FastaFullFileIterable.next
        ⟨⟨[witContig1], buildMapSpec [witSeq1]⟩, true, 5⟩ ⟨"", ""⟩ =
      (.ok false, ⟨⟨[witContig1], buildMapSpec [witSeq1]⟩, true, 5⟩,
        ⟨"", ""⟩))
    ∧ runNexts ⟨⟨[witContig1], buildMapSpec [witSeq1]⟩, true, 5⟩
        ⟨"", ""⟩ 3 = [] :=
  ⟨(next_exhausted_stable ⟨⟨[witContig1], buildMapSpec [witSeq1]⟩, true, 5⟩
      ⟨"", ""⟩ rfl (by decide)).1,
    (next_exhausted_stable ⟨⟨[witContig1], buildMapSpec [witSeq1]⟩, true, 5⟩
      ⟨"", ""⟩ rfl (by decide)).2 3⟩

/-- Claim C10: on every call that does not produce a record — end of the
contig list, an uncached contig, or a dead reader — `Next` leaves the
caller-supplied out record completely unmodified; its fields are written
only when a record is produced. -/
theorem next_frame_condition (it : FastaFullFileIterable)
    (out : GenomeReferenceRecord) :
    (it.next out).1 = .ok true ∨ (it.next out).2.2 = out := by
  by_cases ha : it.alive = false
  · right
    simp [FastaFullFileIterable.next, ha]
  · by_cases hle : it.reader.contigs.length ≤ it.pos
    · right
      simp [FastaFullFileIterable.next, ha, hle]
    · cases hfind : mapFind it.reader.seqs
          (it.reader.contigs.get ⟨it.pos, Nat.lt_of_not_le hle⟩).name with
      | none =>
        right
        rw [List.get_eq_getElem] at hfind
        simp [FastaFullFileIterable.next, ha, hle, hfind]
      | some s =>
        left
        rw [List.get_eq_getElem] at hfind
        simp [FastaFullFileIterable.next, ha, hle, hfind]

end Nucleus
